import Mathlib

/-!
Shallow embedding of the MarketplaceBeatoken smart contract
(src/src/lib.rs): a listing ledger mapping token ids to asking prices,
with entrypoints place_for_sale, withdraw, purchase and
view_list_for_sale.  The Concordium `StateMap` is modelled as an
association list with map semantics; machine integers (u32 token ids and
amounts, 32-byte account addresses, u64 contract address components) are
modelled as `Nat` since the contract performs no arithmetic on them, only
equality tests and the constants 0 and 1.
-/

namespace Marketplace

/-- Model of `concordium_std::AccountAddress` (an opaque 32-byte identity,
only compared for equality by the contract). -/
structure AccountAddress where
  bytes : Nat
deriving DecidableEq, Repr

/-- Model of `concordium_std::ContractAddress` (index and subindex, u64). -/
structure ContractAddress where
  index : Nat
  subindex : Nat
deriving DecidableEq, Repr

/-- Model of `concordium_std::Address`: either an account or a contract. -/
inductive Address where
  | Account (addr : AccountAddress)
  | Contract (addr : ContractAddress)
deriving DecidableEq, Repr

/-- Model of `Address::matches_account`: true exactly when the address is
an account address equal to the given one. -/
def Address.matches_account : Address → AccountAddress → Bool
  | .Account a, acc => decide (a = acc)
  | .Contract _, _ => false

/-- `type TokenId = TokenIdU32` (opaque u32 key). -/
abbrev TokenId := Nat

/-- `type TokenPrice = TokenAmountU32` (u32 amount; no arithmetic done). -/
abbrev TokenPrice := Nat

/-- The `MarketplaceError` enum of the contract. -/
inductive MarketplaceError where
  | ParseParams
  | TokenNotFound
  | Unauthorized
  | InvokeContractError
deriving DecidableEq, Repr

/-- Model of `concordium_cis2::Cis2Error<E>`; the contract only ever
produces the `Custom` variant (via `From<MarketplaceError>`). -/
inductive Cis2Error (E : Type) where
  | InvalidTokenId
  | InsufficientFunds
  | Unauthorized
  | Custom (err : E)
deriving DecidableEq, Repr

/-- `type ContractError = Cis2Error<MarketplaceError>`. -/
abbrev ContractError := Cis2Error MarketplaceError

/-- `type ContractResult<A> = Result<A, ContractError>`. -/
abbrev ContractResult (A : Type) := Except ContractError A

/-- The contract state: `tokens_for_sale: StateMap<TokenId, TokenPrice>`,
modelled as an association list with map semantics. -/
abbrev Ledger := List (TokenId × TokenPrice)

namespace Ledger

/-- Model of `StateMap::get`: price of the first entry with the given key. -/
def get (l : Ledger) (k : TokenId) : Option TokenPrice :=
  match l with
  | [] => none
  | (k', v) :: rest => if k' = k then some v else get rest k

/-- Model of `StateMap::insert`: overwrite the entry for the key if
present, otherwise append a fresh entry. -/
def insert (l : Ledger) (k : TokenId) (v : TokenPrice) : Ledger :=
  match l with
  | [] => [(k, v)]
  | (k', v') :: rest => if k' = k then (k, v) :: rest else (k', v') :: insert rest k v

/-- Model of `StateMap::remove`: drop every entry with the given key. -/
def remove (l : Ledger) (k : TokenId) : Ledger :=
  match l with
  | [] => []
  | (k', v') :: rest => if k' = k then remove rest k else (k', v') :: remove rest k

/-- The keys currently listed. -/
def keys (l : Ledger) : List TokenId := l.map Prod.fst

/-- Well-formedness of the association-list representation: at most one
entry per token id (every ledger reachable from `marketplace_init`
through the contract operations satisfies this). -/
def wf (l : Ledger) : Prop := (keys l).Nodup

instance (l : Ledger) : Decidable (wf l) := by unfold wf; infer_instance

end Ledger

/-- The slice of `HasReceiveContext` the contract reads: the sender of the
invocation and the account that created (owns) the contract instance. -/
structure ReceiveContext where
  sender : Address
  owner : AccountAddress
deriving DecidableEq, Repr

/-- Parameter of `place_for_sale`. -/
structure PlaceForSaleParameter where
  token_id : TokenId
  price : TokenPrice
deriving DecidableEq, Repr

/-- Parameter of `withdraw`. -/
structure WithdrawParameter where
  token_id : TokenId
deriving DecidableEq, Repr

/-- Parameter of `purchase`. -/
structure PurchaseParameter where
  token_id : TokenId
  «from» : AccountAddress
  «to» : AccountAddress
  contract : ContractAddress
deriving DecidableEq, Repr

/-- Model of `concordium_cis2::Receiver`. -/
inductive Receiver where
  | Account (addr : AccountAddress)
  | Contract (addr : ContractAddress) (hook : String)
deriving DecidableEq, Repr

/-- Model of `concordium_cis2::Transfer<TokenId, TokenPrice>`; `data`
models `AdditionalData` as its byte list. -/
structure Transfer where
  token_id : TokenId
  amount : TokenPrice
  «from» : Address
  «to» : Receiver
  data : List Nat
deriving DecidableEq, Repr

/-- One outbound `host.invoke_contract` call: target contract address,
serialized `TransferParams` payload, entrypoint name, attached CCD
amount. -/
structure OutboundCall where
  target : ContractAddress
  parameter : List Transfer
  entrypoint : String
  amount : Nat
deriving DecidableEq, Repr

/-- The external world's response to an outbound call: `true` means the
invoked contract succeeded, `false` any `CallContractError`. -/
abbrev InvokeEnv := OutboundCall → Bool

/-- Result of one receive entrypoint: returned value or error, the ledger
afterwards, and the outbound calls issued during the invocation. -/
structure ReceiveOutcome (A : Type) where
  result : ContractResult A
  state : Ledger
  calls : List OutboundCall

/-- `marketplace_init`: always succeeds with an empty ledger. -/
def marketplace_init : ContractResult Ledger := .ok []

/-- `marketplace_place_for_sale`: unconditional upsert of
(token_id, price), no authorization, no outbound call. -/
def marketplace_place_for_sale (_ctx : ReceiveContext) (l : Ledger)
    (param : PlaceForSaleParameter) : ReceiveOutcome Unit :=
  ⟨.ok (), Ledger.insert l param.token_id param.price, []⟩

/-- The element pushed by `view_list_for_sale` for each ledger entry. -/
structure ViewStateToken where
  id : TokenId
  price : TokenPrice
deriving DecidableEq, Repr

/-- Return value of `view_list_for_sale`. -/
structure ViewState where
  tokens : List ViewStateToken
deriving DecidableEq, Repr

/-- `marketplace_view_list_for_sale`: read-only iteration over the ledger
collecting every (id, price) pair; never fails, no outbound call. -/
def marketplace_view_list_for_sale (_ctx : ReceiveContext) (l : Ledger) :
    ReceiveOutcome ViewState :=
  ⟨.ok ⟨l.map (fun p => ⟨p.1, p.2⟩)⟩, l, []⟩

/-- `marketplace_withdraw`: requires `sender.matches_account(&owner)`,
then an existing listing; removes it.  No outbound call. -/
def marketplace_withdraw (ctx : ReceiveContext) (l : Ledger)
    (param : WithdrawParameter) : ReceiveOutcome Unit :=
  if ctx.sender.matches_account ctx.owner then
    if (Ledger.get l param.token_id).isSome then
      ⟨.ok (), Ledger.remove l param.token_id, []⟩
    else
      ⟨.error (.Custom .TokenNotFound), l, []⟩
  else
    ⟨.error (.Custom .Unauthorized), l, []⟩

/-- The single outbound call built by `marketplace_purchase`: a CIS-2
`transfer` of one unit of the token from `purchase.from` to
`purchase.to`, empty additional data, zero attached amount, sent to
`purchase.contract`. -/
def purchaseCall (purchase : PurchaseParameter) : OutboundCall :=
  { target := purchase.contract
    parameter := [{ token_id := purchase.token_id
                    amount := 1
                    «from» := Address.Account purchase.«from»
                    «to» := Receiver.Account purchase.«to»
                    data := [] }]
    entrypoint := "transfer"
    amount := 0 }

/-- `marketplace_purchase`: authorization check, listing check, one
outbound `transfer` call; the listing is removed only after the call
succeeds, and a failed call (`?` on `invoke_contract`) surfaces as
`InvokeContractError` with the ledger untouched. -/
def marketplace_purchase (env : InvokeEnv) (ctx : ReceiveContext)
    (l : Ledger) (purchase : PurchaseParameter) : ReceiveOutcome Unit :=
  if ctx.sender.matches_account ctx.owner then
    if (Ledger.get l purchase.token_id).isSome then
      if env (purchaseCall purchase) then
        ⟨.ok (), Ledger.remove l purchase.token_id, [purchaseCall purchase]⟩
      else
        ⟨.error (.Custom .InvokeContractError), l, [purchaseCall purchase]⟩
    else
      ⟨.error (.Custom .TokenNotFound), l, []⟩
  else
    ⟨.error (.Custom .Unauthorized), l, []⟩

namespace Ledger

theorem keys_cons (k : TokenId) (v : TokenPrice) (l : Ledger) :
    keys ((k, v) :: l) = k :: keys l := rfl

theorem get_insert_self (l : Ledger) (k : TokenId) (v : TokenPrice) :
    get (insert l k v) k = some v := by
  induction l with
  | nil => simp [insert, get]
  | cons hd tl ih =>
    obtain ⟨k', v'⟩ := hd
    by_cases h : k' = k
    · simp [insert, h, get]
    · simp [insert, h, get, ih]

theorem get_insert_ne (l : Ledger) (k a : TokenId) (v : TokenPrice) (hne : a ≠ k) :
    get (insert l k v) a = get l a := by
  induction l with
  | nil => simp [insert, get, Ne.symm hne]
  | cons hd tl ih =>
    obtain ⟨k', v'⟩ := hd
    by_cases h : k' = k
    · subst h
      simp [insert, get, Ne.symm hne]
    · simp [insert, h, get, ih]

theorem get_remove_self (l : Ledger) (k : TokenId) :
    get (remove l k) k = none := by
  induction l with
  | nil => simp [remove, get]
  | cons hd tl ih =>
    obtain ⟨k', v'⟩ := hd
    by_cases h : k' = k
    · simp [remove, h, ih]
    · simp [remove, h, get, ih]

theorem get_remove_ne (l : Ledger) (k a : TokenId) (hne : a ≠ k) :
    get (remove l k) a = get l a := by
  induction l with
  | nil => simp [remove]
  | cons hd tl ih =>
    obtain ⟨k', v'⟩ := hd
    by_cases h : k' = k
    · subst h
      simp [remove, get, Ne.symm hne, ih]
    · simp [remove, h, get, ih]

theorem get_mem (l : Ledger) (k : TokenId) (p : TokenPrice)
    (h : get l k = some p) : (k, p) ∈ l := by
  induction l with
  | nil => simp [get] at h
  | cons hd tl ih =>
    obtain ⟨k', v'⟩ := hd
    by_cases hk : k' = k
    · subst hk
      simp [get] at h
      simp [h]
    · simp [get, hk] at h
      exact List.mem_cons_of_mem _ (ih h)

theorem isSome_get_iff_mem_keys (l : Ledger) (k : TokenId) :
    (get l k).isSome ↔ k ∈ keys l := by
  induction l with
  | nil => simp [get, keys]
  | cons hd tl ih =>
    obtain ⟨k', v'⟩ := hd
    by_cases h : k' = k
    · simp [get, keys_cons, h]
    · simp [get, keys_cons, h, Ne.symm h, ih]

theorem mem_keys_insert (l : Ledger) (k a : TokenId) (v : TokenPrice) :
    a ∈ keys (insert l k v) ↔ a = k ∨ a ∈ keys l := by
  induction l with
  | nil => simp [insert, keys]
  | cons hd tl ih =>
    obtain ⟨k', v'⟩ := hd
    by_cases h : k' = k
    · subst h
      simp [insert, keys_cons]
    · simp [insert, h, keys_cons, ih]
      tauto

theorem wf_insert (l : Ledger) (k : TokenId) (v : TokenPrice) (h : wf l) :
    wf (insert l k v) := by
  induction l with
  | nil => simp [insert, wf, keys]
  | cons hd tl ih =>
    obtain ⟨k', v'⟩ := hd
    simp only [wf, keys_cons, List.nodup_cons] at h
    obtain ⟨hk', hnd⟩ := h
    by_cases hkk : k' = k
    · subst hkk
      have hstep : insert ((k', v') :: tl) k' v = (k', v) :: tl := by
        simp [insert]
      rw [hstep]
      exact List.nodup_cons.mpr ⟨hk', hnd⟩
    · have hstep : insert ((k', v') :: tl) k v = (k', v') :: insert tl k v := by
        simp [insert, hkk]
      rw [hstep]
      refine List.nodup_cons.mpr ⟨?_, ih hnd⟩
      intro hmem
      rcases (mem_keys_insert tl k k' v).mp hmem with h1 | h2
      · exact hkk h1
      · exact hk' h2

theorem keys_remove_sublist (l : Ledger) (k : TokenId) :
    (keys (remove l k)).Sublist (keys l) := by
  induction l with
  | nil => simp [remove]
  | cons hd tl ih =>
    obtain ⟨k', v'⟩ := hd
    by_cases h : k' = k
    · simp only [remove, if_pos h, keys_cons]
      exact ih.trans (List.sublist_cons_self _ _)
    · simp only [remove, if_neg h, keys_cons]
      exact ih.cons₂ k'

theorem wf_remove (l : Ledger) (k : TokenId) (h : wf l) : wf (remove l k) :=
  (keys_remove_sublist l k).nodup h

theorem mem_keys_of_mem (l : Ledger) (k : TokenId) (p : TokenPrice)
    (h : (k, p) ∈ l) : k ∈ keys l :=
  List.mem_map_of_mem Prod.fst h

theorem get_eq_some_of_mem (l : Ledger) (k : TokenId) (p : TokenPrice)
    (hwf : wf l) (hmem : (k, p) ∈ l) : get l k = some p := by
  induction l with
  | nil => simp at hmem
  | cons hd tl ih =>
    obtain ⟨k', v'⟩ := hd
    simp only [wf, keys_cons, List.nodup_cons] at hwf
    rcases List.mem_cons.mp hmem with heq | htl
    · injection heq with h1 h2
      subst h1
      subst h2
      simp [get]
    · have hk : k' ≠ k := by
        intro hc
        exact hwf.1 (hc ▸ mem_keys_of_mem tl k p htl)
      simp [get, hk]
      exact ih hwf.2 htl

theorem mem_iff_get (l : Ledger) (k : TokenId) (p : TokenPrice) (h : wf l) :
    (k, p) ∈ l ↔ get l k = some p :=
  ⟨get_eq_some_of_mem l k p h, get_mem l k p⟩

theorem count_keys_eq_one (l : Ledger) (k : TokenId) (hwf : wf l)
    (hmem : k ∈ keys l) : (keys l).count k = 1 := by
  exact List.count_eq_one_of_mem hwf hmem

end Ledger

theorem matches_account_true_iff (s : Address) (o : AccountAddress) :
    Address.matches_account s o = true ↔ s = Address.Account o := by
  cases s with
  | Account a => simp [Address.matches_account]
  | Contract c => simp [Address.matches_account]

theorem matches_account_eq_false (s : Address) (o : AccountAddress)
    (h : s ≠ Address.Account o) : Address.matches_account s o = false := by
  rcases Bool.eq_false_or_eq_true (Address.matches_account s o) with hb | hb
  · exact absurd ((matches_account_true_iff s o).mp hb) h
  · exact hb

/-- C1: for every ledger state, every listed token_id and every authorized
caller, if the outbound transfer call issued by purchase fails then
purchase returns the `InvokeContractError` failure and the ledger after
the operation equals the ledger before it; in particular the listing for
that token_id is still present with its original price. -/
theorem C1_purchase_invoke_failure_atomic (env : InvokeEnv)
    (ctx : ReceiveContext) (l : Ledger) (p : PurchaseParameter)
    (price : TokenPrice)
    (hauth : ctx.sender = Address.Account ctx.owner)
    (hlisted : Ledger.get l p.token_id = some price)
    (hfail : env (purchaseCall p) = false) :
    (marketplace_purchase env ctx l p).result
      = .error (.Custom .InvokeContractError) ∧
    (marketplace_purchase env ctx l p).state = l ∧
    Ledger.get (marketplace_purchase env ctx l p).state p.token_id
      = some price := by
  have hm : ctx.sender.matches_account ctx.owner = true :=
    (matches_account_true_iff _ _).mpr hauth
  simp [marketplace_purchase, hm, hlisted, hfail]

theorem C1_witness :
    (marketplace_purchase (fun _ => false) ⟨Address.Account ⟨0⟩, ⟨0⟩⟩
        [(1, 1000)] ⟨1, ⟨0⟩, ⟨1⟩, ⟨42, 0⟩⟩).result
      = .error (.Custom .InvokeContractError) ∧
    (marketplace_purchase (fun _ => false) ⟨Address.Account ⟨0⟩, ⟨0⟩⟩
        [(1, 1000)] ⟨1, ⟨0⟩, ⟨1⟩, ⟨42, 0⟩⟩).state = [(1, 1000)] ∧
    Ledger.get (marketplace_purchase (fun _ => false)
        ⟨Address.Account ⟨0⟩, ⟨0⟩⟩ [(1, 1000)]
        ⟨1, ⟨0⟩, ⟨1⟩, ⟨42, 0⟩⟩).state 1 = some 1000 :=
  C1_purchase_invoke_failure_atomic (fun _ => false)
    ⟨Address.Account ⟨0⟩, ⟨0⟩⟩ [(1, 1000)] ⟨1, ⟨0⟩, ⟨1⟩, ⟨42, 0⟩⟩ 1000
    rfl rfl rfl

/-- C2: for every ledger state, every listed token_id and every authorized
caller, if the outbound transfer call issued by purchase succeeds then
purchase succeeds and the resulting ledger equals the prior ledger with
exactly that token_id's entry removed; every other token's entry is
unchanged. -/
theorem C2_purchase_invoke_success_removes (env : InvokeEnv)
    (ctx : ReceiveContext) (l : Ledger) (p : PurchaseParameter)
    (hauth : ctx.sender = Address.Account ctx.owner)
    (hlisted : (Ledger.get l p.token_id).isSome = true)
    (hok : env (purchaseCall p) = true) :
    (marketplace_purchase env ctx l p).result = .ok () ∧
    (marketplace_purchase env ctx l p).state = Ledger.remove l p.token_id ∧
    Ledger.get (marketplace_purchase env ctx l p).state p.token_id = none ∧
    ∀ k, k ≠ p.token_id →
      Ledger.get (marketplace_purchase env ctx l p).state k
        = Ledger.get l k := by
  have hm : ctx.sender.matches_account ctx.owner = true :=
    (matches_account_true_iff _ _).mpr hauth
  refine ⟨?_, ?_, ?_, ?_⟩ <;>
    simp [marketplace_purchase, hm, hlisted, hok, Ledger.get_remove_self]
  intro k hk
  exact Ledger.get_remove_ne l p.token_id k hk

theorem C2_witness :
    (marketplace_purchase (fun _ => true) ⟨Address.Account ⟨0⟩, ⟨0⟩⟩
        [(1, 1000), (2, 5)] ⟨1, ⟨0⟩, ⟨1⟩, ⟨42, 0⟩⟩).result = .ok () ∧
    (marketplace_purchase (fun _ => true) ⟨Address.Account ⟨0⟩, ⟨0⟩⟩
        [(1, 1000), (2, 5)] ⟨1, ⟨0⟩, ⟨1⟩, ⟨42, 0⟩⟩).state
      = Ledger.remove [(1, 1000), (2, 5)] 1 ∧
    Ledger.get (marketplace_purchase (fun _ => true)
        ⟨Address.Account ⟨0⟩, ⟨0⟩⟩ [(1, 1000), (2, 5)]
        ⟨1, ⟨0⟩, ⟨1⟩, ⟨42, 0⟩⟩).state 1 = none ∧
    ∀ k, k ≠ 1 →
      Ledger.get (marketplace_purchase (fun _ => true)
          ⟨Address.Account ⟨0⟩, ⟨0⟩⟩ [(1, 1000), (2, 5)]
          ⟨1, ⟨0⟩, ⟨1⟩, ⟨42, 0⟩⟩).state k
        = Ledger.get [(1, 1000), (2, 5)] k :=
  C2_purchase_invoke_success_removes (fun _ => true)
    ⟨Address.Account ⟨0⟩, ⟨0⟩⟩ [(1, 1000), (2, 5)] ⟨1, ⟨0⟩, ⟨1⟩, ⟨42, 0⟩⟩
    rfl rfl rfl

/-- C3: for every ledger state, every token_id (listed or not) and every
caller different from the system owner, both withdraw and purchase fail
with `Unauthorized` and leave the ledger unchanged; in the unauthorized
case purchase issues no outbound call. -/
theorem C3_unauthorized_rejected (env : InvokeEnv) (ctx : ReceiveContext)
    (l : Ledger) (wp : WithdrawParameter) (pp : PurchaseParameter)
    (h : ctx.sender ≠ Address.Account ctx.owner) :
    (marketplace_withdraw ctx l wp).result = .error (.Custom .Unauthorized) ∧
    (marketplace_withdraw ctx l wp).state = l ∧
    (marketplace_purchase env ctx l pp).result
      = .error (.Custom .Unauthorized) ∧
    (marketplace_purchase env ctx l pp).state = l ∧
    (marketplace_purchase env ctx l pp).calls = [] := by
  have hm : ctx.sender.matches_account ctx.owner = false :=
    matches_account_eq_false _ _ h
  simp [marketplace_withdraw, marketplace_purchase, hm]

theorem C3_witness :
    (marketplace_withdraw ⟨Address.Account ⟨9⟩, ⟨0⟩⟩ [(1, 1000)]
        ⟨1⟩).result = .error (.Custom .Unauthorized) ∧
    (marketplace_withdraw ⟨Address.Account ⟨9⟩, ⟨0⟩⟩ [(1, 1000)]
        ⟨1⟩).state = [(1, 1000)] ∧
    (marketplace_purchase (fun _ => true) ⟨Address.Account ⟨9⟩, ⟨0⟩⟩
        [(1, 1000)] ⟨1, ⟨0⟩, ⟨1⟩, ⟨42, 0⟩⟩).result
      = .error (.Custom .Unauthorized) ∧
    (marketplace_purchase (fun _ => true) ⟨Address.Account ⟨9⟩, ⟨0⟩⟩
        [(1, 1000)] ⟨1, ⟨0⟩, ⟨1⟩, ⟨42, 0⟩⟩).state = [(1, 1000)] ∧
    (marketplace_purchase (fun _ => true) ⟨Address.Account ⟨9⟩, ⟨0⟩⟩
        [(1, 1000)] ⟨1, ⟨0⟩, ⟨1⟩, ⟨42, 0⟩⟩).calls = [] :=
  C3_unauthorized_rejected (fun _ => true) ⟨Address.Account ⟨9⟩, ⟨0⟩⟩
    [(1, 1000)] ⟨1⟩ ⟨1, ⟨0⟩, ⟨1⟩, ⟨42, 0⟩⟩ (by decide)

/-- C4: for every ledger state and every token_id not currently listed,
withdraw by the system owner fails with `TokenNotFound` and leaves the
ledger unchanged, and purchase by the system owner fails with
`TokenNotFound`, leaves the ledger unchanged and issues no outbound
call. -/
theorem C4_unlisted_notfound (env : InvokeEnv) (ctx : ReceiveContext)
    (l : Ledger) (wp : WithdrawParameter) (pp : PurchaseParameter)
    (hauth : ctx.sender = Address.Account ctx.owner)
    (hw : Ledger.get l wp.token_id = none)
    (hp : Ledger.get l pp.token_id = none) :
    (marketplace_withdraw ctx l wp).result
      = .error (.Custom .TokenNotFound) ∧
    (marketplace_withdraw ctx l wp).state = l ∧
    (marketplace_purchase env ctx l pp).result
      = .error (.Custom .TokenNotFound) ∧
    (marketplace_purchase env ctx l pp).state = l ∧
    (marketplace_purchase env ctx l pp).calls = [] := by
  have hm : ctx.sender.matches_account ctx.owner = true :=
    (matches_account_true_iff _ _).mpr hauth
  simp [marketplace_withdraw, marketplace_purchase, hm, hw, hp]

theorem C4_witness :
    (marketplace_withdraw ⟨Address.Account ⟨0⟩, ⟨0⟩⟩ [(1, 1000)]
        ⟨2⟩).result = .error (.Custom .TokenNotFound) ∧
    (marketplace_withdraw ⟨Address.Account ⟨0⟩, ⟨0⟩⟩ [(1, 1000)]
        ⟨2⟩).state = [(1, 1000)] ∧
    (marketplace_purchase (fun _ => true) ⟨Address.Account ⟨0⟩, ⟨0⟩⟩
        [(1, 1000)] ⟨3, ⟨0⟩, ⟨1⟩, ⟨42, 0⟩⟩).result
      = .error (.Custom .TokenNotFound) ∧
    (marketplace_purchase (fun _ => true) ⟨Address.Account ⟨0⟩, ⟨0⟩⟩
        [(1, 1000)] ⟨3, ⟨0⟩, ⟨1⟩, ⟨42, 0⟩⟩).state = [(1, 1000)] ∧
    (marketplace_purchase (fun _ => true) ⟨Address.Account ⟨0⟩, ⟨0⟩⟩
        [(1, 1000)] ⟨3, ⟨0⟩, ⟨1⟩, ⟨42, 0⟩⟩).calls = [] :=
  C4_unlisted_notfound (fun _ => true) ⟨Address.Account ⟨0⟩, ⟨0⟩⟩
    [(1, 1000)] ⟨2⟩ ⟨3, ⟨0⟩, ⟨1⟩, ⟨42, 0⟩⟩ rfl rfl rfl

/-- C5: for every ledger state, every caller, every token_id and every
price, place_for_sale succeeds with no precondition, the resulting ledger
maps the token_id to the given price and every other entry is unchanged;
listing the same token_id twice with different prices leaves exactly one
entry for it, with the second price winning. -/
theorem C5_place_for_sale_upsert (ctx ctx' : ReceiveContext) (l : Ledger)
    (tid : TokenId) (p1 p2 : TokenPrice) :
    (∀ param : PlaceForSaleParameter,
      (marketplace_place_for_sale ctx l param).result = .ok () ∧
      (marketplace_place_for_sale ctx l param).calls = [] ∧
      Ledger.get (marketplace_place_for_sale ctx l param).state
        param.token_id = some param.price ∧
      ∀ k, k ≠ param.token_id →
        Ledger.get (marketplace_place_for_sale ctx l param).state k
          = Ledger.get l k) ∧
    Ledger.get (marketplace_place_for_sale ctx'
        (marketplace_place_for_sale ctx l ⟨tid, p1⟩).state
        ⟨tid, p2⟩).state tid = some p2 ∧
    (Ledger.wf l →
      (Ledger.keys (marketplace_place_for_sale ctx'
          (marketplace_place_for_sale ctx l ⟨tid, p1⟩).state
          ⟨tid, p2⟩).state).count tid = 1) := by
  refine ⟨?_, ?_, ?_⟩
  · intro param
    refine ⟨rfl, rfl, Ledger.get_insert_self _ _ _, ?_⟩
    intro k hk
    exact Ledger.get_insert_ne l param.token_id k param.price hk
  · exact Ledger.get_insert_self _ _ _
  · intro hwf
    have hwf2 : Ledger.wf (Ledger.insert (Ledger.insert l tid p1) tid p2) :=
      Ledger.wf_insert _ _ _ (Ledger.wf_insert _ _ _ hwf)
    have hmem : tid ∈ Ledger.keys (Ledger.insert (Ledger.insert l tid p1) tid p2) :=
      (Ledger.mem_keys_insert _ _ _ _).mpr (Or.inl rfl)
    exact Ledger.count_keys_eq_one _ _ hwf2 hmem

theorem C5_witness :
    Ledger.get (marketplace_place_for_sale ⟨Address.Account ⟨0⟩, ⟨0⟩⟩
        (marketplace_place_for_sale ⟨Address.Account ⟨0⟩, ⟨0⟩⟩ [(7, 5)]
          ⟨1, 1000⟩).state ⟨1, 2000⟩).state 1 = some 2000 ∧
    (Ledger.keys (marketplace_place_for_sale ⟨Address.Account ⟨0⟩, ⟨0⟩⟩
        (marketplace_place_for_sale ⟨Address.Account ⟨0⟩, ⟨0⟩⟩ [(7, 5)]
          ⟨1, 1000⟩).state ⟨1, 2000⟩).state).count 1 = 1 := by
  have h := C5_place_for_sale_upsert ⟨Address.Account ⟨0⟩, ⟨0⟩⟩
    ⟨Address.Account ⟨0⟩, ⟨0⟩⟩ [(7, 5)] 1 1000 2000
  exact ⟨h.2.1, h.2.2 (by decide)⟩

/-- C6: for every authorized purchase of a listed token_id, purchase
issues exactly one outbound call, to the given registry contract address,
requesting a transfer of amount one of the token_id from the from-address
to the to-address, with empty auxiliary data, the `transfer` entrypoint
and zero attached value; no other operation issues any outbound call. -/
theorem C6_purchase_single_call (env : InvokeEnv) (ctx : ReceiveContext)
    (l : Ledger) (p : PurchaseParameter)
    (hauth : ctx.sender = Address.Account ctx.owner)
    (hlisted : (Ledger.get l p.token_id).isSome = true) :
    (marketplace_purchase env ctx l p).calls
      = [⟨p.contract,
          [⟨p.token_id, 1, Address.Account p.«from»,
            Receiver.Account p.«to», []⟩],
          "transfer", 0⟩] ∧
    (∀ ctx2 l2 param2,
      (marketplace_place_for_sale ctx2 l2 param2).calls = []) ∧
    (∀ ctx2 l2 wp2, (marketplace_withdraw ctx2 l2 wp2).calls = []) ∧
    (∀ ctx2 l2, (marketplace_view_list_for_sale ctx2 l2).calls = []) := by
  have hm : ctx.sender.matches_account ctx.owner = true :=
    (matches_account_true_iff _ _).mpr hauth
  refine ⟨?_, fun _ _ _ => rfl, ?_, fun _ _ => rfl⟩
  · have hstep : marketplace_purchase env ctx l p =
        if env (purchaseCall p) then
          ⟨.ok (), Ledger.remove l p.token_id, [purchaseCall p]⟩
        else
          ⟨.error (.Custom .InvokeContractError), l, [purchaseCall p]⟩ := by
      simp [marketplace_purchase, hm, hlisted]
    rw [hstep]
    split <;> rfl
  · intro ctx2 l2 wp2
    unfold marketplace_withdraw
    by_cases h1 : ctx2.sender.matches_account ctx2.owner <;>
      by_cases h2 : (Ledger.get l2 wp2.token_id).isSome <;> simp [h1, h2]

theorem C6_witness :
    (marketplace_purchase (fun _ => true) ⟨Address.Account ⟨0⟩, ⟨0⟩⟩
        [(1, 1000)] ⟨1, ⟨0⟩, ⟨1⟩, ⟨42, 0⟩⟩).calls
      = [⟨⟨42, 0⟩,
          [⟨1, 1, Address.Account ⟨0⟩, Receiver.Account ⟨1⟩, []⟩],
          "transfer", 0⟩] :=
  (C6_purchase_single_call (fun _ => true) ⟨Address.Account ⟨0⟩, ⟨0⟩⟩
    [(1, 1000)] ⟨1, ⟨0⟩, ⟨1⟩, ⟨42, 0⟩⟩ rfl rfl).1

/-- C7: initialization always succeeds and produces an empty
(well-formed) ledger, and view_list_for_sale applied to the freshly
initialized state succeeds with an empty sequence of pairs and leaves the
state empty. -/
theorem C7_init_empty_view_empty (ctx : ReceiveContext) :
    marketplace_init = .ok ([] : Ledger) ∧
    (marketplace_view_list_for_sale ctx ([] : Ledger)).result = .ok ⟨[]⟩ ∧
    (marketplace_view_list_for_sale ctx ([] : Ledger)).state = [] ∧
    Ledger.wf ([] : Ledger) :=
  ⟨rfl, rfl, rfl, List.nodup_nil⟩

/-- C8: the ledger's read-only lookup (the `StateMap::get` used by
withdraw and purchase, modelled by `Ledger.get`) returns the listed price
when the token_id is listed and an absent result (`none`, never an error)
when it is not. -/
theorem C8_lookup_total (l : Ledger) (k : TokenId) :
    (k ∈ Ledger.keys l → ∃ p, Ledger.get l k = some p ∧ (k, p) ∈ l) ∧
    (k ∉ Ledger.keys l → Ledger.get l k = none) := by
  constructor
  · intro hmem
    have hs : (Ledger.get l k).isSome :=
      (Ledger.isSome_get_iff_mem_keys l k).mpr hmem
    rcases ho : Ledger.get l k with _ | p
    · rw [ho] at hs
      exact absurd hs (by simp)
    · exact ⟨p, rfl, Ledger.get_mem l k p ho⟩
  · intro hmem
    rcases ho : Ledger.get l k with _ | p
    · rfl
    · refine absurd ((Ledger.isSome_get_iff_mem_keys l k).mp ?_) hmem
      rw [ho]
      rfl

theorem C8_witness :
    Ledger.get [(3, 7)] 4 = none ∧
    ∃ p, Ledger.get [(3, 7)] 3 = some p ∧ (3, p) ∈ [(3, 7)] :=
  ⟨(C8_lookup_total [(3, 7)] 4).2 (by decide),
   (C8_lookup_total [(3, 7)] 3).1 (by decide)⟩

theorem view_tokens_map_id (l : Ledger) :
    ((l.map (fun p => (⟨p.1, p.2⟩ : ViewStateToken))).map ViewStateToken.id)
      = Ledger.keys l := by
  induction l with
  | nil => rfl
  | cons hd tl ih =>
    obtain ⟨a, b⟩ := hd
    simp only [List.map_cons, Ledger.keys_cons, ih]

/-- C9: for every well-formed ledger state and every caller,
view_list_for_sale always succeeds, leaves the ledger unchanged, issues
no outbound call, and its returned sequence contains exactly the
(token_id, price) pairs currently in the ledger, one per entry (the
returned token ids are pairwise distinct). -/
theorem C9_view_complete (ctx : ReceiveContext) (l : Ledger)
    (hwf : Ledger.wf l) :
    (marketplace_view_list_for_sale ctx l).state = l ∧
    (marketplace_view_list_for_sale ctx l).calls = [] ∧
    ∃ vs, (marketplace_view_list_for_sale ctx l).result = .ok vs ∧
      (∀ k p, ViewStateToken.mk k p ∈ vs.tokens ↔ Ledger.get l k = some p) ∧
      (vs.tokens.map ViewStateToken.id).Nodup := by
  refine ⟨rfl, rfl,
    ⟨⟨l.map (fun p => (⟨p.1, p.2⟩ : ViewStateToken))⟩, ?_, ?_, ?_⟩⟩
  · rfl
  · intro k p
    rw [← Ledger.mem_iff_get l k p hwf]
    constructor
    · intro hmem
      rcases List.mem_map.mp hmem with ⟨⟨a, b⟩, hab, hEq⟩
      injection hEq with h1 h2
      subst h1
      subst h2
      exact hab
    · intro hmem
      exact List.mem_map.mpr ⟨(k, p), hmem, rfl⟩
  · rw [view_tokens_map_id]
    exact hwf

theorem C9_witness :
    (marketplace_view_list_for_sale ⟨Address.Account ⟨0⟩, ⟨0⟩⟩
        [(1, 1000), (2, 5)]).state = [(1, 1000), (2, 5)] ∧
    (marketplace_view_list_for_sale ⟨Address.Account ⟨0⟩, ⟨0⟩⟩
        [(1, 1000), (2, 5)]).calls = [] ∧
    ∃ vs, (marketplace_view_list_for_sale ⟨Address.Account ⟨0⟩, ⟨0⟩⟩
        [(1, 1000), (2, 5)]).result = .ok vs ∧
      (∀ k p, ViewStateToken.mk k p ∈ vs.tokens ↔
        Ledger.get [(1, 1000), (2, 5)] k = some p) ∧
      (vs.tokens.map ViewStateToken.id).Nodup :=
  C9_view_complete ⟨Address.Account ⟨0⟩, ⟨0⟩⟩ [(1, 1000), (2, 5)]
    (by decide)

/-- C10: withdraw and purchase authorization succeeds only when the
sender is an account address equal to the contract-instance owner
account; a sender that is a contract address always fails with
`Unauthorized`, with the ledger unchanged and no outbound call. -/
theorem C10_contract_sender_unauthorized (env : InvokeEnv)
    (ctx : ReceiveContext) (l : Ledger) (wp : WithdrawParameter)
    (pp : PurchaseParameter) (ca : ContractAddress)
    (h : ctx.sender = Address.Contract ca) :
    (∀ s o, Address.matches_account s o = true ↔ s = Address.Account o) ∧
    (marketplace_withdraw ctx l wp).result = .error (.Custom .Unauthorized) ∧
    (marketplace_withdraw ctx l wp).state = l ∧
    (marketplace_purchase env ctx l pp).result
      = .error (.Custom .Unauthorized) ∧
    (marketplace_purchase env ctx l pp).state = l ∧
    (marketplace_purchase env ctx l pp).calls = [] := by
  have hm : ctx.sender.matches_account ctx.owner = false := by
    rw [h]
    rfl
  refine ⟨matches_account_true_iff, ?_⟩
  simp [marketplace_withdraw, marketplace_purchase, hm]

theorem C10_witness :
    (marketplace_withdraw ⟨Address.Contract ⟨7, 0⟩, ⟨0⟩⟩ [(1, 1000)]
        ⟨1⟩).result = .error (.Custom .Unauthorized) ∧
    (marketplace_withdraw ⟨Address.Contract ⟨7, 0⟩, ⟨0⟩⟩ [(1, 1000)]
        ⟨1⟩).state = [(1, 1000)] ∧
    (marketplace_purchase (fun _ => true) ⟨Address.Contract ⟨7, 0⟩, ⟨0⟩⟩
        [(1, 1000)] ⟨1, ⟨0⟩, ⟨1⟩, ⟨42, 0⟩⟩).result
      = .error (.Custom .Unauthorized) ∧
    (marketplace_purchase (fun _ => true) ⟨Address.Contract ⟨7, 0⟩, ⟨0⟩⟩
        [(1, 1000)] ⟨1, ⟨0⟩, ⟨1⟩, ⟨42, 0⟩⟩).state = [(1, 1000)] ∧
    (marketplace_purchase (fun _ => true) ⟨Address.Contract ⟨7, 0⟩, ⟨0⟩⟩
        [(1, 1000)] ⟨1, ⟨0⟩, ⟨1⟩, ⟨42, 0⟩⟩).calls = [] :=
  (C10_contract_sender_unauthorized (fun _ => true)
    ⟨Address.Contract ⟨7, 0⟩, ⟨0⟩⟩ [(1, 1000)] ⟨1⟩ ⟨1, ⟨0⟩, ⟨1⟩, ⟨42, 0⟩⟩
    ⟨7, 0⟩ rfl).2

end Marketplace
